import Mathlib

/-
Verification of the FlowState real-time EEG pipeline against its
natural-language specification.

Shallow embedding of the relevant Python source:
  src/backend/adaptive_audio_engine.py        (AdaptiveAudioEngine)
  src/backend/eeg/realtime_processor.py       (EEGBuffer, RealtimeEEGProcessor)
  src/backend/flow_state_detector.py          (FlowStateDetector)
  src/backend/core/algorithms/flow/stability_system.py (FlowStateStabilitySystem)

Python floats are modelled by exact rationals where only field arithmetic,
comparisons, min/max and absolute values occur, and by real numbers where
pi, square roots or complex exponentials appear.
-/

/-! ## Shared numeric helpers -/

/-- Embeds `np.clip(x, lo, hi)` over rationals: `np.minimum(hi, np.maximum(lo, x))`. -/
def clip (x lo hi : ℚ) : ℚ := min (max x lo) hi

/-- Arithmetic mean of a rational list (`np.mean`); division by zero for the
empty list yields 0 under Lean's convention (numpy yields NaN there; every
use below is guarded so the empty case is never relied upon). -/
def meanQ (xs : List ℚ) : ℚ := xs.sum / xs.length

/-- Population variance of a rational list (`np.var`). -/
def varQ (xs : List ℚ) : ℚ := meanQ (xs.map (fun x => (x - meanQ xs) ^ 2))

/-! ## Generic invariant/step machinery for iterated adaptation steps

`List.scanl f a l` is the trace of states reached from `a` by folding the
step function `f` over the inputs `l`, including the initial state. -/

/-- A step function that preserves an invariant `P` and whose every step
satisfies the relation `R` yields a trace all of whose states satisfy `P`
and whose consecutive pairs satisfy `R`. -/
theorem scanl_invariant_chain {α β : Type} (f : α → β → α) (P : α → Prop)
    (R : α → α → Prop) (hstep : ∀ a b, P a → P (f a b) ∧ R a (f a b)) :
    ∀ (l : List β) (a : α), P a →
      (∀ x ∈ List.scanl f a l, P x) ∧ List.Chain' R (List.scanl f a l) := by
  intro l
  induction l with
  | nil =>
    intro a ha
    constructor
    · intro x hx
      simp only [List.scanl_nil, List.mem_singleton] at hx
      rwa [hx]
    · simp [List.scanl_nil]
  | cons b l ih =>
    intro a ha
    obtain ⟨hP, hR⟩ := hstep a b ha
    obtain ⟨h1, h2⟩ := ih (f a b) hP
    constructor
    · intro x hx
      rw [List.scanl_cons, List.singleton_append, List.mem_cons] at hx
      rcases hx with rfl | hx
      · exact ha
      · exact h1 x hx
    · rw [List.scanl_cons, List.singleton_append]
      refine List.chain'_cons'.mpr ⟨?_, h2⟩
      intro y hy
      have hh : (List.scanl f (f a b) l).head? = some (f a b) := by
        cases l <;> rfl
      rw [hh] at hy
      simp only [Option.mem_some_iff] at hy
      exact hy ▸ hR

/-! ## AdaptiveAudioEngine (src/backend/adaptive_audio_engine.py)

`AdaptiveAudioEngine._adapt_frequencies` mutates the fields `base_freq` and
`beat_freq` of `self.current_session` (a `FrequencyResponse`), reading its
`flow_score` and the `alpha_power`/`theta_power` of the metrics argument.
`FREQUENCY_RANGES` holds `carrier = (min 100, max 400)`; the beat clip bounds
`(1.0, 40.0)` are literals in `_adapt_frequencies`. -/

/-- The fields of `FrequencyResponse` (the engine's `current_session`) that
`_adapt_frequencies` reads or writes. -/
structure Session where
  baseFreq : ℚ
  beatFreq : ℚ
  flowScore : ℚ
deriving DecidableEq

/-- The fields of the flow-metrics argument that `_adapt_frequencies` reads
for the frequency update. -/
structure AdaptMetrics where
  alphaPower : ℚ
  thetaPower : ℚ
deriving DecidableEq

/-- Embeds `AdaptiveAudioEngine._adapt_frequencies`: when the current flow
score is below 0.7 it multiplies `base_freq` by 0.98 or 1.02 (according to
`alpha_power < 0.6`) and clips to the carrier range (100, 400), and likewise
`beat_freq` (according to `theta_power < 0.6`) clipped to (1.0, 40.0);
otherwise it leaves both frequencies unchanged.  (The method also updates
`phase_state.coupling_strength`, which does not affect the frequencies and
is omitted.) -/
def adaptFrequencies (s : Session) (m : AdaptMetrics) : Session :=
  if s.flowScore < 0.7 then
    { s with
      baseFreq := clip (s.baseFreq * (if m.alphaPower < 0.6 then 0.98 else 1.02)) 100 400
      beatFreq := clip (s.beatFreq * (if m.thetaPower < 0.6 then 0.98 else 1.02)) 1 40 }
  else s

/-- The frequency safety ranges enforced by `_adapt_frequencies`:
carrier in `FREQUENCY_RANGES` is (100, 400), the beat clip bounds are
(1.0, 40.0). -/
def sessionInRange (s : Session) : Prop :=
  100 ≤ s.baseFreq ∧ s.baseFreq ≤ 400 ∧ 1 ≤ s.beatFreq ∧ s.beatFreq ≤ 40

instance (s : Session) : Decidable (sessionInRange s) := by
  unfold sessionInRange; infer_instance

/-- One adaptation changes each frequency by at most 2% of its previous
value. -/
def stepBounded (s t : Session) : Prop :=
  |t.baseFreq - s.baseFreq| ≤ 0.02 * s.baseFreq ∧
    |t.beatFreq - s.beatFreq| ≤ 0.02 * s.beatFreq

instance (s t : Session) : Decidable (stepBounded s t) := by
  unfold stepBounded; infer_instance

/-- Clipping a 2% decrease of an in-range non-negative value stays in range
and moves by at most 2% of the previous value. -/
lemma clip_down_props (b lo hi : ℚ) (h1 : lo ≤ b) (h2 : b ≤ hi) (h0 : 0 ≤ b)
    (hlohi : lo ≤ hi) :
    lo ≤ clip (b * 0.98) lo hi ∧ clip (b * 0.98) lo hi ≤ hi ∧
      |clip (b * 0.98) lo hi - b| ≤ 0.02 * b := by
  simp only [clip]
  have hyb : b * 0.98 ≤ b := by nlinarith
  have hc1 : min (max (b * 0.98) lo) hi ≤ b :=
    le_trans (min_le_left _ _) (max_le hyb h1)
  have hc2 : b * 0.98 ≤ min (max (b * 0.98) lo) hi :=
    le_min (le_max_left _ _) (le_trans hyb h2)
  refine ⟨le_min (le_max_right _ _) hlohi, min_le_right _ _, ?_⟩
  rw [abs_le]
  constructor <;> nlinarith

/-- Clipping a 2% increase of an in-range non-negative value stays in range
and moves by at most 2% of the previous value. -/
lemma clip_up_props (b lo hi : ℚ) (h1 : lo ≤ b) (h2 : b ≤ hi) (h0 : 0 ≤ b)
    (hlohi : lo ≤ hi) :
    lo ≤ clip (b * 1.02) lo hi ∧ clip (b * 1.02) lo hi ≤ hi ∧
      |clip (b * 1.02) lo hi - b| ≤ 0.02 * b := by
  simp only [clip]
  have hby : b ≤ b * 1.02 := by nlinarith
  have hc1 : b ≤ min (max (b * 1.02) lo) hi :=
    le_min (le_trans hby (le_max_left _ _)) h2
  have hc2 : min (max (b * 1.02) lo) hi ≤ b * 1.02 :=
    le_trans (min_le_left _ _) (max_le le_rfl (le_trans h1 hby))
  refine ⟨le_min (le_max_right _ _) hlohi, min_le_right _ _, ?_⟩
  rw [abs_le]
  constructor <;> nlinarith

/-- A single `_adapt_frequencies` step keeps both frequencies in their safety
ranges and moves each by at most 2% of its previous value. -/
lemma adaptFrequencies_step (s : Session) (m : AdaptMetrics) (h : sessionInRange s) :
    sessionInRange (adaptFrequencies s m) ∧ stepBounded s (adaptFrequencies s m) := by
  obtain ⟨h1, h2, h3, h4⟩ := h
  have hb0 : (0 : ℚ) ≤ s.baseFreq := by linarith
  have ht0 : (0 : ℚ) ≤ s.beatFreq := by linarith
  unfold adaptFrequencies sessionInRange stepBounded
  split_ifs with hf ha ht ht
  · obtain ⟨hd1, hd2, hd3⟩ := clip_down_props s.baseFreq 100 400 h1 h2 hb0 (by norm_num)
    obtain ⟨he1, he2, he3⟩ := clip_down_props s.beatFreq 1 40 h3 h4 ht0 (by norm_num)
    exact ⟨⟨hd1, hd2, he1, he2⟩, hd3, he3⟩
  · obtain ⟨hd1, hd2, hd3⟩ := clip_down_props s.baseFreq 100 400 h1 h2 hb0 (by norm_num)
    obtain ⟨he1, he2, he3⟩ := clip_up_props s.beatFreq 1 40 h3 h4 ht0 (by norm_num)
    exact ⟨⟨hd1, hd2, he1, he2⟩, hd3, he3⟩
  · obtain ⟨hd1, hd2, hd3⟩ := clip_up_props s.baseFreq 100 400 h1 h2 hb0 (by norm_num)
    obtain ⟨he1, he2, he3⟩ := clip_down_props s.beatFreq 1 40 h3 h4 ht0 (by norm_num)
    exact ⟨⟨hd1, hd2, he1, he2⟩, hd3, he3⟩
  · obtain ⟨hd1, hd2, hd3⟩ := clip_up_props s.baseFreq 100 400 h1 h2 hb0 (by norm_num)
    obtain ⟨he1, he2, he3⟩ := clip_up_props s.beatFreq 1 40 h3 h4 ht0 (by norm_num)
    exact ⟨⟨hd1, hd2, he1, he2⟩, hd3, he3⟩
  · exact ⟨⟨h1, h2, h3, h4⟩, by rw [sub_self, abs_zero]; nlinarith,
      by rw [sub_self, abs_zero]; nlinarith⟩

/-- C1: for every sequence of flow-metric inputs to `_adapt_frequencies`,
starting from frequencies inside the safety ranges, every state of the
resulting trace keeps the base frequency in the carrier range (100, 400) and
the beat frequency in its safety range (1.0, 40.0), and every single
adaptation changes each frequency by at most 2% of its previous value (so the
stimulation parameters never jump discontinuously). -/
theorem adaptFrequencies_bounded_and_safe (s0 : Session) (ms : List AdaptMetrics)
    (h0 : sessionInRange s0) :
    (∀ s ∈ List.scanl adaptFrequencies s0 ms, sessionInRange s) ∧
      List.Chain' stepBounded (List.scanl adaptFrequencies s0 ms) :=
  scanl_invariant_chain adaptFrequencies sessionInRange stepBounded
    adaptFrequencies_step ms s0 h0

/-- Witness for C1 at the concrete session (base 200 Hz, beat 10 Hz, flow
score 0) and one metrics input with low alpha and theta power. -/
theorem adaptFrequencies_bounded_and_safe_witness :
    sessionInRange ⟨200, 10, 0⟩ ∧
      ((∀ s ∈ List.scanl adaptFrequencies ⟨200, 10, 0⟩ [⟨0, 0⟩], sessionInRange s) ∧
        List.Chain' stepBounded (List.scanl adaptFrequencies ⟨200, 10, 0⟩ [⟨0, 0⟩])) :=
  ⟨by decide, adaptFrequencies_bounded_and_safe ⟨200, 10, 0⟩ [⟨0, 0⟩] (by decide)⟩

/-! ## Flow score ratio denominators (`AdaptiveAudioEngine._calculate_flow_score`) -/

/-- Embeds the Python float idiom `x or d` used for the ratio denominators in
`_calculate_flow_score` (`alpha / (theta or 0.1)`): it yields the fallback
`d` exactly when `x` is falsy, i.e. equals 0.0, and yields `x` itself for
every other value. -/
def pyOr (x d : ℚ) : ℚ := if x = 0 then d else x

/-- Embeds `AdaptiveAudioEngine._calculate_flow_score`. -/
def calculateFlowScore (alpha theta beta : ℚ) : ℚ :=
  let alphaTheta := alpha / pyOr theta 0.1
  let alphaBeta := alpha / pyOr beta 0.1
  let alphaThetaScore := 1 - min (|alphaTheta - 1.5| / 1.5) 1
  let alphaBetaScore := 1 - min (|alphaBeta - 2.0| / 2.0) 1
  0.6 * alphaThetaScore + 0.4 * alphaBetaScore

/-- Counterexample for C8: at the non-negative denominator band power 0.05
the divisor actually used by `_calculate_flow_score` is 0.05 itself, not
max(0.05, 0.1) = 0.1 — Python `or` substitutes the epsilon only when the
denominator is exactly 0. -/
theorem pyOr_is_not_floor_counterexample :
    (0 : ℚ) ≤ 0.05 ∧ pyOr 0.05 0.1 ≠ max 0.05 0.1 := by
  constructor
  · norm_num
  · norm_num [pyOr]

/-- C8 (amended): in the two ratio computations present in
`_calculate_flow_score` (alpha/theta and alpha/beta; no theta/beta ratio is
computed there), the denominator is replaced by the epsilon 0.1 only when it
equals 0 exactly; for every non-negative band power the divisor actually used
is therefore positive — division by zero never occurs — but for 0 < d < 0.1
the divisor is d itself, not max(d, 0.1). -/
theorem pyOr_divisor_amended (d : ℚ) (hd : 0 ≤ d) :
    pyOr d 0.1 = (if d = 0 then 0.1 else d) ∧ 0 < pyOr d 0.1 := by
  constructor
  · rfl
  · unfold pyOr
    split_ifs with h
    · norm_num
    · exact lt_of_le_of_ne hd (Ne.symm h)

/-- Witness for C8 (amended) at the denominator 0. -/
theorem pyOr_divisor_amended_witness :
    (0 : ℚ) ≤ 0 ∧
      (pyOr 0 0.1 = (if (0 : ℚ) = 0 then 0.1 else 0) ∧ 0 < pyOr 0 0.1) :=
  ⟨le_refl 0, pyOr_divisor_amended 0 (le_refl 0)⟩

/-! ## FlowStateStabilitySystem (src/backend/core/algorithms/flow/stability_system.py) -/

/-- `FlowStateStabilitySystem.__init__`: `self.challenge_increment = 0.1`. -/
def challengeIncrement : ℚ := 0.1

/-- `FlowStateStabilitySystem.__init__`: `self.current_challenge = 0.5`. -/
def initialChallenge : ℚ := 0.5

/-- The three branches `maintain_stability` dispatches to each epoch. -/
inductive StabilityAction
  | stabilize
  | deepen
  | maintain
deriving DecidableEq

/-- One update of `current_challenge`: `_stabilize_state` lowers it by the
increment floored at 0.3, `_deepen_flow` raises it by the increment capped at
0.9, `_maintain_state` leaves it unchanged. -/
def challengeStep (c : ℚ) : StabilityAction → ℚ
  | .stabilize => max 0.3 (c - challengeIncrement)
  | .deepen => min 0.9 (c + challengeIncrement)
  | .maintain => c

/-- The trace of `current_challenge` values over a run, starting from the
initial value 0.5. -/
def challengeTrace (acts : List StabilityAction) : List ℚ :=
  List.scanl challengeStep initialChallenge acts

lemma challengeStep_preserves (c : ℚ) (a : StabilityAction)
    (h : 0.3 ≤ c ∧ c ≤ 0.9) :
    (0.3 ≤ challengeStep c a ∧ challengeStep c a ≤ 0.9) ∧
      |challengeStep c a - c| ≤ challengeIncrement := by
  obtain ⟨h1, h2⟩ := h
  cases a <;> unfold challengeStep challengeIncrement
  · refine ⟨⟨le_max_left _ _, max_le (by norm_num) (by linarith)⟩, ?_⟩
    rcases max_cases (0.3 : ℚ) (c - 0.1) with ⟨heq, hge⟩ | ⟨heq, hlt⟩ <;>
      rw [heq, abs_le] <;> constructor <;> linarith
  · refine ⟨⟨le_min (by norm_num) (by linarith), min_le_left _ _⟩, ?_⟩
    rcases min_cases (0.9 : ℚ) (c + 0.1) with ⟨heq, hge⟩ | ⟨heq, hlt⟩ <;>
      rw [heq, abs_le] <;> constructor <;> linarith
  · exact ⟨⟨h1, h2⟩, by rw [sub_self, abs_zero]; norm_num⟩

/-- C10: the stability system's challenge level starts at 0.5, and for every
sequence of stabilize/deepen/maintain steps every value of the trace stays
within the interval from 0.3 to 0.9 while consecutive values differ by at
most the challenge increment 0.1. -/
theorem challengeTrace_invariant (acts : List StabilityAction) :
    initialChallenge = 0.5 ∧ challengeIncrement = 0.1 ∧
      (∀ c ∈ challengeTrace acts, 0.3 ≤ c ∧ c ≤ 0.9) ∧
      List.Chain' (fun a b => |b - a| ≤ challengeIncrement) (challengeTrace acts) := by
  refine ⟨rfl, rfl, ?_⟩
  exact scanl_invariant_chain challengeStep (fun c => 0.3 ≤ c ∧ c ≤ 0.9)
    (fun a b => |b - a| ≤ challengeIncrement) challengeStep_preserves acts
    initialChallenge (by norm_num [initialChallenge])

/-! ## EEGBuffer (src/backend/eeg/realtime_processor.py)

`EEGBuffer.data` is declared as `deque(maxlen=2048)` by its default factory —
the 2048 is a hard-coded literal, independent of the `max_size` field that
`RealtimeEEGProcessor.__init__` computes as `int(buffer_duration *
sampling_rate)` and that the class docstring documents as the maximum number
of samples to store. -/

/-- The hard-coded `maxlen=2048` of the `EEGBuffer.data` deque. -/
def dequeMaxlen : ℕ := 2048

/-- Embeds `deque.append` for a deque with `maxlen = 2048`: appends on the
right, silently discarding the oldest (leftmost) element when full. -/
def dequeAppend (buf : List ℚ) (x : ℚ) : List ℚ :=
  if buf.length < dequeMaxlen then buf ++ [x] else buf.tail ++ [x]

/-- A sequence of appends into the `EEGBuffer.data` deque. -/
def dequeAppendAll (buf : List ℚ) (xs : List ℚ) : List ℚ :=
  xs.foldl dequeAppend buf

/-- Embeds `RealtimeEEGProcessor.__init__`:
`self.buffer_size = int(buffer_duration * sampling_rate)`, stored into
`EEGBuffer.max_size` — the capacity the spec and the class docstring promise
(`int` truncation agrees with the floor for the non-negative values used). -/
def bufferSize (samplingRate : ℕ) (bufferDuration : ℚ) : ℤ :=
  ⌊bufferDuration * samplingRate⌋

/-- While total length stays within the deque bound, appends simply
accumulate. -/
lemma dequeAppendAll_under_capacity :
    ∀ (xs buf : List ℚ), buf.length + xs.length ≤ dequeMaxlen →
      dequeAppendAll buf xs = buf ++ xs := by
  intro xs
  induction xs with
  | nil =>
    intro buf h
    simp [dequeAppendAll]
  | cons x xs ih =>
    intro buf h
    have hlt : buf.length < dequeMaxlen := by
      simp only [List.length_cons] at h
      omega
    have hstep : dequeAppend buf x = buf ++ [x] := by
      unfold dequeAppend
      rw [if_pos hlt]
    calc dequeAppendAll buf (x :: xs)
        = dequeAppendAll (buf ++ [x]) xs := by
          simp only [dequeAppendAll, List.foldl_cons, hstep]
      _ = (buf ++ [x]) ++ xs := by
          refine ih (buf ++ [x]) ?_
          simp only [List.length_append, List.length_cons, List.length_nil] at h ⊢
          omega
      _ = buf ++ x :: xs := by simp

/-- C2: with the default configuration (sampling rate 256 Hz, buffer duration
4.0 s) the promised capacity `sample_rate * buffer_duration` is 1024, yet
after pushing 1088 samples — more than that capacity — the buffer holds all
1088 of them, because the `EEGBuffer.data` deque is constructed with the
hard-coded `maxlen=2048` and never consults `max_size`.  This contradicts the
class docstring of `EEGBuffer` (`max_size: Maximum number of samples to
store`), so the code, not the claim, is at fault. -/
theorem eegBuffer_capacity_mismatch :
    bufferSize 256 4 = 1024 ∧
      (dequeAppendAll [] (List.replicate 1088 0)).length = 1088 ∧
      (1088 : ℤ) ≠ bufferSize 256 4 := by
  refine ⟨?_, ?_, ?_⟩
  · norm_num [bufferSize]
  · have hcap : ([] : List ℚ).length + (List.replicate 1088 (0 : ℚ)).length ≤ dequeMaxlen := by
      rw [List.length_nil, List.length_replicate]
      norm_num [dequeMaxlen]
    rw [dequeAppendAll_under_capacity _ _ hcap, List.nil_append,
      List.length_replicate]
  · norm_num [bufferSize]

/-! ## FlowStateDetector (src/backend/flow_state_detector.py) -/

/-- Modelled from the spec: the body of
`FlowStateDetector._calculate_confidence` is missing from the source (the
method consists of a docstring and a placeholder comment only), so the
computation is modelled from the spec: confidence combines (a) the inverse of
the recent feature variance (stability — low variance means higher
confidence) and (b) the current signal quality, both weighted and averaged;
it is never reported above 1 or below 0; and with fewer than 10 historical
epochs it defaults to 0.5. -/
def calculateConfidence (history : List ℚ) (signalQuality : ℚ) : ℚ :=
  if history.length < 10 then 0.5
  else
    let recent := history.drop (history.length - 10)
    let stability := 1 / (1 + varQ recent)
    clip ((stability + clip signalQuality 0 1) / 2) 0 1

lemma clip01_mem (x : ℚ) : 0 ≤ clip x 0 1 ∧ clip x 0 1 ≤ 1 := by
  unfold clip
  exact ⟨le_min (le_max_right _ _) (by norm_num), min_le_right _ _⟩

/-- C3: for every feature history and signal quality the returned confidence
lies in [0, 1], and whenever the history holds fewer than 10 epochs it equals
exactly 0.5. -/
theorem calculateConfidence_bounds (history : List ℚ) (signalQuality : ℚ) :
    (0 ≤ calculateConfidence history signalQuality ∧
      calculateConfidence history signalQuality ≤ 1) ∧
      (history.length < 10 → calculateConfidence history signalQuality = 0.5) := by
  unfold calculateConfidence
  split_ifs with h
  · exact ⟨⟨by norm_num, by norm_num⟩, fun _ => rfl⟩
  · exact ⟨clip01_mem _, fun hlt => absurd hlt h⟩

/-- Witness for C3: with an empty history (fewer than 10 epochs) the
confidence evaluates to exactly 0.5. -/
theorem calculateConfidence_bounds_witness :
    calculateConfidence [] 2 = 0.5 :=
  (calculateConfidence_bounds [] 2).2 (by norm_num)

/-- The feature names read by `detect_flow_state`,
`_determine_flow_state` and `_generate_recommendations` through
`features.get(name, 0.0)`. -/
inductive FeatureKey
  | alphaThetaRatio
  | thetaBetaRatio
  | betaAlphaRatio
  | attentionLevel
  | cognitiveLoad
  | challengeSkillRatio
  | thetaGammaCoupling
  | phaseSynchronization
  | focusScore
  | flowProbability
  | signalQuality
deriving DecidableEq

/-- Embeds the Python dict read `features.get(key, 0.0)` on a feature dict. -/
def fget : List (FeatureKey × ℚ) → FeatureKey → ℚ
  | [], _ => 0
  | (k, v) :: rest, key => if k = key then v else fget rest key

/-- The `FlowState` enumeration of flow_state_detector.py. -/
inductive FlowStateM
  | unknown
  | anxiety
  | boredom
  | flow
  | deepFlow
deriving DecidableEq

/-- Modelled from the spec: the body of
`FlowStateDetector._determine_flow_state` is missing from the source
(docstring and placeholder comment only); the decision policy is modelled as
the deterministic thresholds its own docstring documents — alpha/theta ratio
above 1.5 suggests flow, additionally theta/beta above 1.2 suggests deep
flow, beta/alpha above 1.3 suggests anxiety, attention below 0.3 suggests
boredom, anything else is unknown. -/
def determineFlowState (f : List (FeatureKey × ℚ)) : FlowStateM :=
  if 1.5 < fget f .alphaThetaRatio then
    (if 1.2 < fget f .thetaBetaRatio then .deepFlow else .flow)
  else if 1.3 < fget f .betaAlphaRatio then .anxiety
  else if fget f .attentionLevel < 0.3 then .boredom
  else .unknown

/-- The fixed catalog of recommendation messages issued by
`FlowStateDetector._generate_recommendations`, one constructor per message
string of the source. -/
inductive Recommendation
  | breakTaskIntoSmallerSteps
  | reduceComplexity
  | increaseTaskComplexity
  | addComplexity
  | maintainEngagement
  | watchCognitiveLoad
  | maintainConditions
  | alphaThetaBinauralBeats
  | alphaBinauralBeats
deriving DecidableEq

/-- Embeds `FlowStateDetector._generate_recommendations`: state-specific
messages first, then the binaural-beat advice keyed on attention and
cognitive load. -/
def generateRecommendations (st : FlowStateM) (f : List (FeatureKey × ℚ)) :
    List Recommendation :=
  let base : List Recommendation :=
    match st with
    | .anxiety =>
        (if 0.7 < fget f .cognitiveLoad then [.breakTaskIntoSmallerSteps] else [])
          ++ [.reduceComplexity]
    | .boredom =>
        (if fget f .attentionLevel < 0.3 then [.increaseTaskComplexity] else [])
          ++ [.addComplexity]
    | .flow =>
        [.maintainEngagement]
          ++ (if 0.8 < fget f .cognitiveLoad then [.watchCognitiveLoad] else [])
    | .deepFlow => [.maintainConditions]
    | .unknown => []
  base ++
    (if fget f .attentionLevel < 0.5 then [.alphaThetaBinauralBeats]
     else if 0.7 < fget f .cognitiveLoad then [.alphaBinauralBeats] else [])

/-- The `FlowMetrics` record produced once per epoch by
`detect_flow_state`. -/
structure FlowMetricsModel where
  flowLevel : FlowStateM
  confidence : ℚ
  challengeSkillBalance : ℚ
  cognitiveLoad : ℚ
  attentionLevel : ℚ
  thetaGammaCoupling : ℚ
  phaseSync : ℚ
  focusScore : ℚ
  flowProbability : ℚ
  recommendations : List Recommendation
deriving DecidableEq

/-- Embeds `FlowStateDetector.detect_flow_state` on pre-extracted features:
classify, compute confidence, generate recommendations and assemble the
`FlowMetrics` record from `features.get(..., 0.0)` reads.  The stubbed
helpers are the spec-modelled `determineFlowState` and
`calculateConfidence`; the latter receives the detector's feature history,
which the spec directs confidence to depend on. -/
def detectFlowState (f : List (FeatureKey × ℚ)) (history : List ℚ) :
    FlowMetricsModel :=
  let flowState := determineFlowState f
  { flowLevel := flowState
    confidence := calculateConfidence history (fget f .signalQuality)
    challengeSkillBalance := fget f .challengeSkillRatio
    cognitiveLoad := fget f .cognitiveLoad
    attentionLevel := fget f .attentionLevel
    thetaGammaCoupling := fget f .thetaGammaCoupling
    phaseSync := fget f .phaseSynchronization
    focusScore := fget f .focusScore
    flowProbability := fget f .flowProbability
    recommendations := generateRecommendations flowState f }

/-- C9: classification is deterministic — two runs of `detect_flow_state` on
an equal feature vector and an equal history return equal (state, confidence)
results (indeed equal full metrics); there is no hidden randomness anywhere
in the call chain. -/
theorem detectFlowState_deterministic (f1 f2 : List (FeatureKey × ℚ))
    (h1 h2 : List ℚ) (hf : f1 = f2) (hh : h1 = h2) :
    detectFlowState f1 h1 = detectFlowState f2 h2 := by
  subst hf
  subst hh
  rfl

/-- Witness for C9 at a concrete feature dict and history. -/
theorem detectFlowState_deterministic_witness :
    detectFlowState [(.alphaThetaRatio, 2)] [1] =
      detectFlowState [(.alphaThetaRatio, 2)] [1] :=
  detectFlowState_deterministic _ _ _ _ rfl rfl

/-! ## RealtimeEEGProcessor.extract_features (src/backend/eeg/realtime_processor.py)

The feature formulas use pi, square roots (`np.std`) and complex
exponentials, so this part of the embedding lives over the real and complex
numbers.  The FFT-based analytic signal `scipy.signal.hilbert` is abstracted
by two function parameters: `hilbertPhase` for `np.angle(hilbert(xs))` and
`hilbertEnv` for `np.abs(hilbert(xs))`; the feature formulas under scrutiny
are functions of those phase/envelope series exactly as in the spec. -/

/-- Embeds `np.clip(x, lo, hi)` over the reals. -/
noncomputable def clipR (x lo hi : ℝ) : ℝ := min (max x lo) hi

/-- Arithmetic mean of a real list (`np.mean`); 0 on the empty list under
the division-by-zero convention (numpy yields NaN there; all uses below are
guarded). -/
noncomputable def meanR (xs : List ℝ) : ℝ := xs.sum / xs.length

/-- Population variance of a real list (`np.var`). -/
noncomputable def varR (xs : List ℝ) : ℝ :=
  meanR (xs.map (fun x => (x - meanR xs) ^ 2))

/-- Population standard deviation of a real list (`np.std`). -/
noncomputable def stdR (xs : List ℝ) : ℝ := Real.sqrt (varR xs)

lemma stdR_nonneg (xs : List ℝ) : 0 ≤ stdR xs := Real.sqrt_nonneg _

/-- Embeds `np.mod(x, m)` for real arguments: `x - m * floor(x / m)`. -/
noncomputable def npMod (x m : ℝ) : ℝ := x - m * (⌊x / m⌋ : ℤ)

/-- Embeds the phase-synchronization feature of `extract_features`:
`sync = 1 - np.std(np.mod(alpha_phase - beta_phase, 2 * np.pi))`, as a
function of the two phase series. -/
noncomputable def alphaBetaSyncFeature (alphaPhase betaPhase : List ℝ) : ℝ :=
  1 - stdR ((List.zipWith (fun a b => a - b) alphaPhase betaPhase).map
    (fun d => npMod d (2 * Real.pi)))

/-- The phase-synchronization formula in the words of the spec:
`1 - std((phase_alpha - phase_beta) mod 2 pi) / pi`, clamped to [0, 1].
Stated only to be compared against `alphaBetaSyncFeature`. -/
noncomputable def alphaBetaSyncSpec (alphaPhase betaPhase : List ℝ) : ℝ :=
  clipR (1 - stdR ((List.zipWith (fun a b => a - b) alphaPhase betaPhase).map
    (fun d => npMod d (2 * Real.pi))) / Real.pi) 0 1

/-- Counterexample for C6: on the alpha phases [0, 3] and beta phases [0, 0]
the code's phase-synchronization feature evaluates to -1/2 — it is negative,
hence not clamped to [0, 1], and differs from the spec's pi-normalized,
clamped formula. -/
theorem alphaBetaSync_counterexample :
    alphaBetaSyncFeature [0, 3] [0, 0] < 0 ∧
      alphaBetaSyncFeature [0, 3] [0, 0] ≠ alphaBetaSyncSpec [0, 3] [0, 0] := by
  have hpi3 : (3 : ℝ) < 2 * Real.pi := by
    have := Real.pi_gt_three
    linarith
  have h2pi : (0 : ℝ) < 2 * Real.pi := by linarith
  have hmod0 : npMod 0 (2 * Real.pi) = 0 := by
    unfold npMod
    rw [zero_div, Int.floor_zero]
    simp
  have hmod3 : npMod 3 (2 * Real.pi) = 3 := by
    unfold npMod
    have hfl : ⌊(3 : ℝ) / (2 * Real.pi)⌋ = 0 := by
      rw [Int.floor_eq_zero_iff]
      refine Set.mem_Ico.mpr ⟨by positivity, ?_⟩
      rw [div_lt_one h2pi]
      exact hpi3
    rw [hfl]
    simp
  have hlist : (List.zipWith (fun a b => a - b) [(0 : ℝ), 3] [(0 : ℝ), 0]).map
      (fun d => npMod d (2 * Real.pi)) = [0, 3] := by
    show [npMod (0 - 0) (2 * Real.pi), npMod (3 - 0) (2 * Real.pi)] = [0, 3]
    norm_num [hmod0, hmod3]
  have hmean : meanR [(0 : ℝ), 3] = 3 / 2 := by
    unfold meanR
    norm_num
  have hstd : stdR [(0 : ℝ), 3] = 3 / 2 := by
    unfold stdR varR
    rw [hmean]
    rw [show ([(0 : ℝ), 3].map (fun x => (x - 3 / 2) ^ 2)) = [9 / 4, 9 / 4] by norm_num]
    rw [show meanR [(9 / 4 : ℝ), 9 / 4] = 9 / 4 by unfold meanR; norm_num]
    rw [show (9 / 4 : ℝ) = (3 / 2) ^ 2 by norm_num,
      Real.sqrt_sq (by norm_num : (0 : ℝ) ≤ 3 / 2)]
  have hval : alphaBetaSyncFeature [(0 : ℝ), 3] [0, 0] = -(1 / 2) := by
    unfold alphaBetaSyncFeature
    rw [hlist, hstd]
    norm_num
  have hspec0 : 0 ≤ alphaBetaSyncSpec [(0 : ℝ), 3] [0, 0] := by
    unfold alphaBetaSyncSpec clipR
    exact le_min (le_max_right _ _) (by norm_num)
  constructor
  · rw [hval]
    norm_num
  · rw [hval]
    intro hcontra
    rw [← hcontra] at hspec0
    norm_num at hspec0

/-- C6 (amended): the phase-synchronization feature computed by
`extract_features` is `1 - std((phase_alpha - phase_beta) mod 2 pi)` with no
division by pi and no clamping; it never exceeds 1 (the standard deviation is
non-negative) but it can be negative, so it is not confined to [0, 1]. -/
theorem alphaBetaSyncFeature_le_one (alphaPhase betaPhase : List ℝ) :
    alphaBetaSyncFeature alphaPhase betaPhase ≤ 1 := by
  unfold alphaBetaSyncFeature
  linarith [stdR_nonneg ((List.zipWith (fun a b => a - b) alphaPhase betaPhase).map
    (fun d => npMod d (2 * Real.pi)))]

/-- Embeds the theta-gamma cross-frequency coupling feature of
`extract_features`: `np.abs(np.mean(gamma_amp * np.exp(1j * theta_phase)))`,
as a function of the gamma envelope and theta phase series. -/
noncomputable def thetaGammaCouplingFeature (gammaEnv thetaPhase : List ℝ) : ℝ :=
  Complex.abs
    ((List.zipWith (fun (g : ℝ) (p : ℝ) => (g : ℂ) * Complex.exp ((p : ℂ) * Complex.I))
        gammaEnv thetaPhase).sum /
      ((List.zipWith (fun (g : ℝ) (p : ℝ) => (g : ℂ) * Complex.exp ((p : ℂ) * Complex.I))
        gammaEnv thetaPhase).length : ℂ))

lemma abs_list_sum_le (l : List ℂ) :
    Complex.abs l.sum ≤ (l.map Complex.abs).sum := by
  induction l with
  | nil => simp
  | cons x xs ih =>
    simp only [List.sum_cons, List.map_cons]
    calc Complex.abs (x + xs.sum)
        ≤ Complex.abs x + Complex.abs xs.sum := Complex.abs.add_le x xs.sum
      _ ≤ Complex.abs x + (xs.map Complex.abs).sum := by linarith

lemma abs_coupling_terms_sum (gammaEnv thetaPhase : List ℝ)
    (hg : ∀ x ∈ gammaEnv, 0 ≤ x) (hl : gammaEnv.length = thetaPhase.length) :
    ((List.zipWith (fun (g : ℝ) (p : ℝ) => (g : ℂ) * Complex.exp ((p : ℂ) * Complex.I))
        gammaEnv thetaPhase).map Complex.abs).sum = gammaEnv.sum := by
  induction gammaEnv generalizing thetaPhase with
  | nil => simp
  | cons a as ih =>
    cases thetaPhase with
    | nil => simp at hl
    | cons b bs =>
      simp only [List.zipWith_cons_cons, List.map_cons, List.sum_cons]
      have ha : Complex.abs ((a : ℂ) * Complex.exp ((b : ℂ) * Complex.I)) = a := by
        rw [map_mul, Complex.abs_ofReal, Complex.abs_exp_ofReal_mul_I, mul_one]
        exact abs_of_nonneg (hg a (List.mem_cons_self _ _))
      rw [ha, ih bs (fun x hx => hg x (List.mem_cons_of_mem _ hx)) (by simpa using hl)]

/-- Counterexample for C7: with the constant gamma envelope [2, 2] and theta
phases [0, 0] the coupling feature evaluates to 2 — the code applies no
normalization, so the stored value is not confined to [0, 1]. -/
theorem thetaGammaCoupling_counterexample :
    thetaGammaCouplingFeature [2, 2] [0, 0] = 2 ∧
      1 < thetaGammaCouplingFeature [2, 2] [0, 0] := by
  have hexp : Complex.exp (((0 : ℝ) : ℂ) * Complex.I) = 1 := by
    simp
  have hzip : (List.zipWith (fun (g : ℝ) (p : ℝ) => (g : ℂ) * Complex.exp ((p : ℂ) * Complex.I))
      [(2 : ℝ), 2] [(0 : ℝ), 0]) = [(2 : ℂ), 2] := by
    show [(((2 : ℝ) : ℂ)) * Complex.exp (((0 : ℝ) : ℂ) * Complex.I),
      (((2 : ℝ) : ℂ)) * Complex.exp (((0 : ℝ) : ℂ) * Complex.I)] = [(2 : ℂ), 2]
    rw [hexp]
    norm_num
  have hval : thetaGammaCouplingFeature [2, 2] [0, 0] = 2 := by
    unfold thetaGammaCouplingFeature
    rw [hzip]
    rw [show ([(2 : ℂ), 2].sum) = 4 by norm_num [List.sum_cons]]
    rw [show (([(2 : ℂ), 2].length : ℂ)) = 2 by norm_num]
    rw [show ((4 : ℂ) / 2) = 2 by norm_num]
    rw [show ((2 : ℂ)) = (((2 : ℝ)) : ℂ) by norm_num]
    rw [Complex.abs_ofReal]
    norm_num
  exact ⟨hval, by rw [hval]; norm_num⟩

/-- C7 (amended): the theta-gamma coupling feature equals the magnitude of
the mean of `gamma_envelope * exp(i * theta_phase)` across the epoch, and for
non-negative envelope values it lies between 0 and the mean gamma envelope;
no normalization is applied, so it lies in [0, 1] only when the mean envelope
does. -/
theorem thetaGammaCoupling_bounds (gammaEnv thetaPhase : List ℝ)
    (hg : ∀ x ∈ gammaEnv, 0 ≤ x) (hl : gammaEnv.length = thetaPhase.length)
    (hne : gammaEnv ≠ []) :
    0 ≤ thetaGammaCouplingFeature gammaEnv thetaPhase ∧
      thetaGammaCouplingFeature gammaEnv thetaPhase ≤ meanR gammaEnv := by
  unfold thetaGammaCouplingFeature
  refine ⟨Complex.abs.nonneg _, ?_⟩
  have hlen : (List.zipWith (fun (g : ℝ) (p : ℝ) => (g : ℂ) * Complex.exp ((p : ℂ) * Complex.I))
      gammaEnv thetaPhase).length = gammaEnv.length := by
    rw [List.length_zipWith, hl, min_self]
  rw [map_div₀, Complex.abs_natCast, hlen]
  unfold meanR
  have hnpos : (0 : ℝ) < (gammaEnv.length : ℝ) := by
    cases gammaEnv with
    | nil => exact absurd rfl hne
    | cons a as => exact_mod_cast Nat.succ_pos as.length
  refine (div_le_div_iff_of_pos_right hnpos).mpr ?_
  calc Complex.abs (List.zipWith (fun (g : ℝ) (p : ℝ) => (g : ℂ) * Complex.exp ((p : ℂ) * Complex.I))
        gammaEnv thetaPhase).sum
      ≤ ((List.zipWith (fun (g : ℝ) (p : ℝ) => (g : ℂ) * Complex.exp ((p : ℂ) * Complex.I))
        gammaEnv thetaPhase).map Complex.abs).sum := abs_list_sum_le _
    _ = gammaEnv.sum := abs_coupling_terms_sum gammaEnv thetaPhase hg hl

/-- Witness for C7 (amended) at the envelope [1] and phase [0]. -/
theorem thetaGammaCoupling_bounds_witness :
    0 ≤ thetaGammaCouplingFeature [1] [0] ∧
      thetaGammaCouplingFeature [1] [0] ≤ meanR [1] :=
  thetaGammaCoupling_bounds [1] [0] (by norm_num) rfl (by simp)

/-! ## extract_features control flow (C4, C5)

`RealtimeEEGProcessor.extract_features` checks `if not self.buffer.data:
return {}` and otherwise reads `self.buffer.filtered_data['theta']` (a
`KeyError` when `process_chunk` has never populated the dict) and feeds each
band series to `scipy.signal.hilbert`, which raises
`ValueError: N must be positive` on an empty array.  There is no
`latest_epoch(duration)` request and no `InsufficientDataError` anywhere in
the source. -/

/-- The per-band filtered series held in `EEGBuffer.filtered_data` once
`process_chunk` has populated it. -/
structure BandData where
  theta : List ℝ
  alpha : List ℝ
  beta : List ℝ
  gamma : List ℝ

/-- The processor state read by `extract_features`: the chunk deque
`buffer.data` and the band dict `buffer.filtered_data` (`none` models the
initial empty dict). -/
structure ProcBuffer where
  data : List (List ℝ)
  filtered : Option BandData

/-- The exceptions `extract_features` can raise: the `KeyError` on the
missing `theta` entry of an unpopulated `filtered_data` dict, and the
`ValueError` from `scipy.signal.hilbert` on an empty band series. -/
inductive ExtractError
  | keyErrorTheta
  | hilbertEmpty
deriving DecidableEq

/-- The feature dict returned by a successful, fully-computed
`extract_features` call: band powers, the coupling and synchronization
features and the signal quality. -/
structure FeatureSet where
  thetaPower : ℝ
  alphaPower : ℝ
  betaPower : ℝ
  gammaPower : ℝ
  thetaGammaCoupling : ℝ
  alphaBetaSync : ℝ
  signalQuality : ℝ

/-- Embeds `RealtimeEEGProcessor.extract_features`.  The result is `ok none`
for the `return {}` branch (the empty dict), `ok (some fs)` for the full
feature dict, and `error e` when the Python code raises.  `hilbertPhase`
abstracts `np.angle(signal.hilbert(xs))`, `hilbertEnv` abstracts
`np.abs(signal.hilbert(xs))`, and `signalQualityOf` abstracts
`np.mean(self.detect_artifacts(data))`; band powers are
`np.mean(np.abs(xs) ** 2)` of the filtered series, and the coupling and
synchronization features apply `thetaGammaCouplingFeature` and
`alphaBetaSyncFeature` to the phase/envelope series exactly as the source
does.  The hilbert calls are checked in source order (theta, gamma, alpha,
beta). -/
noncomputable def extractFeatures (hilbertPhase hilbertEnv : List ℝ → List ℝ)
    (signalQualityOf : List (List ℝ) → ℝ) (b : ProcBuffer) :
    Except ExtractError (Option FeatureSet) :=
  match b.data with
  | [] => Except.ok none
  | _ :: _ =>
    match b.filtered with
    | none => Except.error ExtractError.keyErrorTheta
    | some bd =>
      match bd.theta with
      | [] => Except.error ExtractError.hilbertEmpty
      | _ :: _ =>
        match bd.gamma with
        | [] => Except.error ExtractError.hilbertEmpty
        | _ :: _ =>
          match bd.alpha with
          | [] => Except.error ExtractError.hilbertEmpty
          | _ :: _ =>
            match bd.beta with
            | [] => Except.error ExtractError.hilbertEmpty
            | _ :: _ =>
              Except.ok (some
                { thetaPower := meanR (bd.theta.map (fun x => |x| ^ 2))
                  alphaPower := meanR (bd.alpha.map (fun x => |x| ^ 2))
                  betaPower := meanR (bd.beta.map (fun x => |x| ^ 2))
                  gammaPower := meanR (bd.gamma.map (fun x => |x| ^ 2))
                  thetaGammaCoupling :=
                    thetaGammaCouplingFeature (hilbertEnv bd.gamma) (hilbertPhase bd.theta)
                  alphaBetaSync :=
                    alphaBetaSyncFeature (hilbertPhase bd.alpha) (hilbertPhase bd.beta)
                  signalQuality := signalQualityOf b.data })

/-- Counterexample for C4: on a non-empty buffer whose theta band series is
empty (a buffer underrun after filtering), `extract_features` raises the
hilbert `ValueError` instead of returning a zeroed FeatureVector with
`signal_quality = 0`. -/
theorem extractFeatures_underrun_counterexample :
    extractFeatures id id (fun _ => 0) ⟨[[0]], some ⟨[], [0], [0], [0]⟩⟩ =
      Except.error ExtractError.hilbertEmpty := rfl

/-- C4 (amended): whenever the buffer is non-empty, the band dict is
populated and its theta series is empty, `extract_features` raises the
hilbert `ValueError` — it does not degrade gracefully to a zeroed feature
vector (the all-zero-fields / `signal_quality = 0` behaviour claimed by the
spec does not exist; the empty-buffer branch returns an empty dict
instead). -/
theorem extractFeatures_empty_band_raises (hilbertPhase hilbertEnv : List ℝ → List ℝ)
    (signalQualityOf : List (List ℝ) → ℝ) (b : ProcBuffer) (bd : BandData)
    (hdata : b.data ≠ []) (hfilt : b.filtered = some bd) (hth : bd.theta = []) :
    extractFeatures hilbertPhase hilbertEnv signalQualityOf b =
      Except.error ExtractError.hilbertEmpty := by
  rcases b with ⟨data, filt⟩
  cases data with
  | nil => exact absurd rfl hdata
  | cons c cs =>
    dsimp only at hfilt
    subst hfilt
    rcases bd with ⟨th, al, be, ga⟩
    dsimp only at hth
    subst hth
    rfl

/-- Witness for C4 (amended) at a concrete underrun state. -/
theorem extractFeatures_empty_band_raises_witness :
    extractFeatures id id (fun _ => 1) ⟨[[1]], some ⟨[], [1], [1], [1]⟩⟩ =
      Except.error ExtractError.hilbertEmpty :=
  extractFeatures_empty_band_raises id id (fun _ => 1)
    ⟨[[1]], some ⟨[], [1], [1], [1]⟩⟩ ⟨[], [1], [1], [1]⟩
    (by simp) rfl rfl

/-- Counterexample for C5: requesting features before any samples have been
pushed does not fail with `InsufficientDataError` — `extract_features`
returns the empty dict (`ok none`), and no `InsufficientDataError` or
duration-parameterized `latest_epoch` exists anywhere in the source. -/
theorem extractFeatures_no_insufficient_data_error :
    extractFeatures id id (fun _ => 0) ⟨[], none⟩ = Except.ok none := rfl

/-- C5 (amended): whenever features are requested and the buffer holds no
samples — in particular before any samples are pushed — `extract_features`
returns the empty feature dict without raising; when data is present the
features are computed from the entire buffer contents, with no
duration-parameterized epoch selection. -/
theorem extractFeatures_empty_buffer (hilbertPhase hilbertEnv : List ℝ → List ℝ)
    (signalQualityOf : List (List ℝ) → ℝ) (fd : Option BandData) :
    extractFeatures hilbertPhase hilbertEnv signalQualityOf ⟨[], fd⟩ =
      Except.ok none := rfl
